import Mathlib

/-!
Verification development for the droidrunnerd task-queue server.

The definitions below are a shallow embedding of the Go sources:
`server/main.go` (request validation) and the queue implementation
(`Queue`, `Task`, `Submit`, `Cancel`, `Clear`, `Position`, `Run`,
`process`, `removePendingOrder`).  Machine integers of the source are
modelled as `Int`/`Nat`; `time.Time` values are modelled as `Nat`
instants, with unset (zero) timestamps as `none`.  The external worker
process is opaque: one run of it is summarised by an `Outcome` record
(exit error, captured stdout and stderr, and the verdict of
`json.Unmarshal` on the stdout bytes).
-/

namespace DroidRun

/-- Lifecycle status of a task; the Go code stores the corresponding
strings "queued", "running", "completed", "failed", "cancelled". -/
inductive Status where
  | queued
  | running
  | completed
  | failed
  | cancelled
deriving DecidableEq, Repr

/-- Incoming task request (Go struct `TaskRequest`); `apiKey` is the
backwards-compatibility body field, never stored. -/
structure TaskRequest where
  goal : String
  app : String
  provider : String
  model : String
  reasoning : Bool
  vision : Bool
  maxSteps : Int
  apiKey : String
deriving DecidableEq, Repr

/-- Sanitized request stored on a task (Go struct `TaskRequestSafe`):
no credential field. -/
structure TaskRequestSafe where
  goal : String
  app : String
  provider : String
  model : String
  reasoning : Bool
  vision : Bool
  maxSteps : Int
deriving DecidableEq, Repr

/-- A task record (Go struct `Task`).  The opaque `steps` payload is
kept as a raw string; `apiKey` is the unexported credential field. -/
structure Task where
  id : String
  request : TaskRequestSafe
  status : Status
  success : Bool
  result : String
  error : String
  logs : String
  steps : Option String
  createdAt : Nat
  startedAt : Option Nat
  finishedAt : Option Nat
  apiKey : String
deriving DecidableEq, Repr

/-- Parsed worker result envelope (the anonymous struct decoded from
worker stdout in `Queue.process`). -/
structure WorkerResult where
  ok : Bool
  success : Bool
  reason : String
  error : String
  steps : Option String
deriving DecidableEq, Repr

/-- Summary of one worker-process run: `exitErr` is `cmd.Run()`'s error
(`none` = exit status zero), `stdout`/`stderr` the captured streams and
`parsed` the verdict of `json.Unmarshal` on the stdout bytes. -/
structure Outcome where
  exitErr : Option String
  stdout : String
  parsed : Option WorkerResult
  stderr : String
deriving DecidableEq, Repr

/-! ### Request validation (`validateRequest` in `server/main.go`) -/

/-- Whitespace per Go `unicode.IsSpace` on the Latin-1 range (the range
relevant to goal strings); used by `strings.TrimSpace`. -/
def goIsSpace (c : Char) : Bool :=
  c = ' ' || c = '\t' || c = '\n' || c = '\x0B' || c = '\x0C' || c = '\r' ||
  c = '\u0085' || c = '\u00A0'

/-- Go `strings.TrimSpace`: drop leading and trailing whitespace. -/
def goTrimSpace (s : String) : String :=
  String.mk (((s.data.dropWhile goIsSpace).reverse.dropWhile goIsSpace).reverse)

/-- The supported-provider set (Go map `validProviders`). -/
def validProvider (p : String) : Bool :=
  p = "Google" || p = "GoogleGenAI" || p = "Anthropic" || p = "OpenAI" ||
  p = "DeepSeek" || p = "Ollama"

/-- Provider → default model table (the `switch` in `validateRequest`).
The empty default is unreachable for validated providers. -/
def defaultModel (p : String) : String :=
  if p = "Google" || p = "GoogleGenAI" then "gemini-2.0-flash"
  else if p = "Anthropic" then "claude-sonnet-4-20250514"
  else if p = "OpenAI" then "gpt-4o"
  else if p = "DeepSeek" then "deepseek-chat"
  else if p = "Ollama" then "llama3.2"
  else ""

/-- Provider after defaulting: empty provider becomes "Google". -/
def effProvider (p : String) : String :=
  if p = "" then "Google" else p

/-- Step-budget clamping of `validateRequest`: non-positive collapses to
30, values above 100 clamp to 100. -/
def clampSteps (n : Int) : Int :=
  if n ≤ 0 then 30 else if n > 100 then 100 else n

def isAsciiLetter (c : Char) : Bool :=
  ('a' ≤ c && c ≤ 'z') || ('A' ≤ c && c ≤ 'Z')

def isPkgTailChar (c : Char) : Bool :=
  isAsciiLetter c || ('0' ≤ c && c ≤ '9') || c = '_'

/-- One dot-separated segment of a package name: `[a-zA-Z][a-zA-Z0-9_]*`. -/
def validSegment : List Char → Bool
  | [] => false
  | c :: rest => isAsciiLetter c && rest.all isPkgTailChar

/-- Split a character list on '.' (keeping empty segments). -/
def splitOnDot : List Char → List (List Char)
  | [] => [[]]
  | c :: rest =>
    if c = '.' then [] :: splitOnDot rest
    else
      match splitOnDot rest with
      | [] => [[c]]
      | p :: ps => (c :: p) :: ps

/-- The Android package-name shape check: the regular expression
`^[a-zA-Z][a-zA-Z0-9_]*(\.[a-zA-Z][a-zA-Z0-9_]*)+$`, i.e. two or more
valid segments joined by dots. -/
def isValidPackageName (s : String) : Bool :=
  let parts := splitOnDot s.data
  decide (2 ≤ parts.length) && parts.all validSegment

/-- `validateRequest` from `server/main.go`: trims the goal, defaults
the provider and model, clamps the step budget, and rejects empty
goals, unsupported providers, missing credentials (except Ollama), and
malformed app package names.  Go mutates `req` in place; here the
normalized request is returned on success. -/
def validateRequest (req : TaskRequest) (apiKey : String) :
    Except String TaskRequest :=
  let g := goTrimSpace req.goal
  if g = "" then .error "goal is required"
  else
    let p := effProvider req.provider
    if ¬ validProvider p then
      .error ("invalid provider: " ++ p ++
        " (valid: Google, Anthropic, OpenAI, DeepSeek, Ollama)")
    else
      let m := if req.model = "" then defaultModel p else req.model
      let n := clampSteps req.maxSteps
      if apiKey = "" ∧ p ≠ "Ollama" then
        .error "API key required (use X-API-Key header)"
      else if req.app ≠ "" ∧ ¬ isValidPackageName req.app then
        .error ("invalid app package name: " ++ req.app)
      else
        .ok { req with goal := g, provider := p, model := m, maxSteps := n }

/-! ### The queue state -/

/-- Assoc-map lookup over the task registry (Go `q.tasks[id]`). -/
def tget : List (String × Task) → String → Option Task
  | [], _ => none
  | (k, v) :: rest, id => if k = id then some v else tget rest id

/-- Update the entry for a key in place (mutation through the shared
`*Task` pointer in Go). -/
def tset (f : Task → Task) : List (String × Task) → String → List (String × Task)
  | [], _ => []
  | (k, v) :: rest, id =>
    if k = id then (k, f v) :: rest else (k, v) :: tset f rest id

/-- `Queue.removePendingOrder`: remove the first occurrence of an id. -/
def removeFirst : List String → String → List String
  | [], _ => []
  | x :: rest, id => if x = id then rest else x :: removeFirst rest id

/-- Index of the first occurrence of an id (the scan in `Queue.Position`). -/
def idxOf? : List String → String → Option Nat
  | [], _ => none
  | x :: rest, id =>
    if x = id then some 0 else (idxOf? rest id).map (· + 1)

/-- State of the single sequencer goroutine (`Queue.Run`): idle between
jobs, or busy running the worker for one task id. -/
inductive SeqState where
  | idle
  | busy (id : String)
deriving DecidableEq, Repr

/-- The queue (Go struct `Queue`): task registry, buffered `pending`
channel contents (front of list = front of channel), `pendingOrder`,
`current` id, whether `currentCmd` is non-nil, and the worker path.
`used` is ghost bookkeeping of all ids ever issued, modelling that the
random 8-hex-char ids are collision-free within one process. -/
structure QState where
  tasks : List (String × Task)
  channel : List String
  pendingOrder : List String
  current : String
  cmdLive : Bool
  seq : SeqState
  workerPath : String
  used : List String
deriving DecidableEq, Repr

/-- `NewQueue`. -/
def initQueue (wp : String) : QState :=
  { tasks := [], channel := [], pendingOrder := [], current := "",
    cmdLive := false, seq := .idle, workerPath := wp, used := [] }

/-! ### Operations -/

/-- The defaulting at the top of `Queue.Submit` (independent of
`validateRequest`): provider "" → "Google", model "" → a fixed
"gemini-2.0-flash", and `MaxSteps == 0` → 30. -/
def submitDefaults (req : TaskRequest) : TaskRequest :=
  let r1 := if req.provider = "" then { req with provider := "Google" } else req
  let r2 := if r1.model = "" then { r1 with model := "gemini-2.0-flash" } else r1
  if r2.maxSteps = 0 then { r2 with maxSteps := 30 } else r2

/-- The task record built by `Queue.Submit`: status queued, creation
time set, credential kept only in the internal field. -/
def mkTask (req : TaskRequest) (apiKey id : String) (now : Nat) : Task :=
  let r := submitDefaults req
  { id := id,
    request :=
      { goal := r.goal, app := r.app, provider := r.provider, model := r.model,
        reasoning := r.reasoning, vision := r.vision, maxSteps := r.maxSteps },
    status := .queued, success := false, result := "", error := "", logs := "",
    steps := none, createdAt := now, startedAt := none, finishedAt := none,
    apiKey := apiKey }

/-- `Queue.Submit`: store the new record, append to the pending order
and enqueue the id on the work channel. -/
def qsubmit (q : QState) (req : TaskRequest) (apiKey id : String) (now : Nat) :
    QState × Task :=
  let task := mkTask req apiKey id now
  ({ q with
      tasks := q.tasks ++ [(id, task)],
      pendingOrder := q.pendingOrder ++ [id],
      channel := q.channel ++ [id],
      used := q.used ++ [id] }, task)

/-- `Queue.Get`. -/
def qget (q : QState) (id : String) : Option Task :=
  tget q.tasks id

/-- `Queue.Position`: 0 if the id is the currently running one, else
its 1-based rank in the pending order, else -1. -/
def qposition (q : QState) (id : String) : Int :=
  if q.current = id then 0
  else
    match idxOf? q.pendingOrder id with
    | some i => (i : Int) + 1
    | none => -1

/-- `Queue.Cancel`.  Returns the new state, the reported Bool, and
whether a kill of the worker process was issued (`task.Status ==
"running" && q.currentCmd != nil && q.current == id`).  The kill is
best-effort: its success or failure has no effect on the transition. -/
def qcancel (q : QState) (id : String) (now : Nat) : QState × Bool × Bool :=
  match tget q.tasks id with
  | none => (q, false, false)
  | some task =>
    let kill : Bool :=
      if task.status = .running ∧ q.cmdLive = true ∧ q.current = id then true
      else false
    if task.status = .queued ∨ task.status = .running then
      ({ q with
          tasks := tset (fun t => { t with status := .cancelled, finishedAt := some now })
            q.tasks id,
          pendingOrder := removeFirst q.pendingOrder id }, true, kill)
    else (q, false, kill)

/-- `Queue.Clear`: best-effort kill of any current process, then drop
every record, the current marker, the pending order and the channel
backlog; returns the prior task count. -/
def qclear (q : QState) : QState × Nat :=
  ({ q with tasks := [], current := "", pendingOrder := [], channel := [] },
   q.tasks.length)

/-- The first locked section of `Queue.process` after `Run` dequeues an
id: if the task is gone the iteration is a no-op; otherwise the task is
marked running with its start time, `current` is set, the id is removed
from the pending order, and the worker process is spawned
(`currentCmd` becomes non-nil, the sequencer is busy).  Note the code
does not inspect the prior status. -/
def qstart (q : QState) (h : String) (rest : List String) (now : Nat) : QState :=
  match tget q.tasks h with
  | none => { q with channel := rest }
  | some _ =>
    { q with
        channel := rest,
        tasks := tset (fun t => { t with status := .running, startedAt := some now })
          q.tasks h,
        current := h,
        pendingOrder := removeFirst q.pendingOrder h,
        cmdLive := true,
        seq := .busy h }

/-- The final locked section of `Queue.process`, applied to the record
the sequencer holds: record finish time and stderr logs; if the status
already reads cancelled, stop (the late result is discarded); otherwise
derive the terminal status from the outcome: non-zero exit → failed
(preferring captured stderr over the exit error), unparseable stdout →
failed with the raw output embedded in the message, parsed envelope
with `ok=false` → failed with its error, else completed. -/
def finalizeTask (t : Task) (o : Outcome) (now : Nat) : Task :=
  let t1 := { t with finishedAt := some now, logs := o.stderr }
  if t1.status = .cancelled then t1
  else
    match o.exitErr with
    | some e =>
      { t1 with status := .failed,
                error := if o.stderr ≠ "" then o.stderr else e }
    | none =>
      match o.parsed with
      | none =>
        { t1 with status := .failed,
                  error := "invalid worker output: " ++ o.stdout }
      | some r =>
        if r.ok = false then { t1 with status := .failed, error := r.error }
        else
          { t1 with status := .completed, success := r.success,
                    result := r.reason, steps := r.steps }

/-- Queue-level effect of the final locked section of `Queue.process`:
`currentCmd` is cleared, `current` is reset, the sequencer goes idle,
and the held record is finalized.  If `Clear` removed the record, the
writes land on the dead record and the registry is unaffected (the
`tset` is then a no-op, matching the Go pointer semantics for ids that
are never reissued). -/
def qfinish (q : QState) (h : String) (o : Outcome) (now : Nat) : QState :=
  { q with cmdLive := false, current := "", seq := .idle,
           tasks := tset (fun t => finalizeTask t o now) q.tasks h }

/-! ### The interleaving semantics -/

/-- One externally triggered or sequencer step. -/
inductive Label where
  | submit (req : TaskRequest) (apiKey id : String) (now : Nat)
  | cancel (id : String) (now : Nat)
  | clear
  | start (now : Nat)
  | finish (o : Outcome) (now : Nat)

/-- The step relation: API calls `Submit`/`Cancel`/`Clear` at any time,
and the two locked sections of the single sequencer (`start` dequeues
the channel front when idle; `finish` completes the busy run).  The
freshness hypothesis on `submit` models collision-free random ids. -/
def Step (s : QState) : Label → QState → Prop
  | .submit req apiKey id now, t =>
    id ∉ s.used ∧ t = (qsubmit s req apiKey id now).1
  | .cancel id now, t => t = (qcancel s id now).1
  | .clear, t => t = (qclear s).1
  | .start now, t =>
    s.seq = .idle ∧ ∃ h rest, s.channel = h :: rest ∧ t = qstart s h rest now
  | .finish o now, t => ∃ h, s.seq = .busy h ∧ t = qfinish s h o now

/-- States reachable from `NewQueue wp` by any interleaving of the
operations. -/
inductive Reachable (wp : String) : QState → Prop where
  | init : Reachable wp (initQueue wp)
  | step {s l t} : Reachable wp s → Step s l t → Reachable wp t

/-! ### External representation (JSON) and the worker invocation -/

/-- A JSON value; `raw` embeds an opaque already-serialized payload. -/
inductive JVal where
  | jnull
  | jbool (b : Bool)
  | jnum (n : Int)
  | jstr (s : String)
  | raw (s : String)
  | jobj (fields : List (String × JVal))

/-- The status strings stored by the Go code. -/
def statusStr : Status → String
  | .queued => "queued"
  | .running => "running"
  | .completed => "completed"
  | .failed => "failed"
  | .cancelled => "cancelled"

/-- JSON encoding of `TaskRequestSafe` per its struct tags
(`app` carries `omitempty`). -/
def encodeReqSafe (r : TaskRequestSafe) : JVal :=
  .jobj ([("goal", .jstr r.goal)] ++
    (if r.app = "" then [] else [("app", .jstr r.app)]) ++
    [("provider", .jstr r.provider), ("model", .jstr r.model),
     ("reasoning", .jbool r.reasoning), ("vision", .jbool r.vision),
     ("max_steps", .jnum r.maxSteps)])

def encodeTime : Option Nat → JVal
  | none => .jnum 0
  | some n => .jnum n

/-- JSON encoding of `Task` per its struct tags: the unexported
`apiKey` field is never serialized; `success`, `result`, `error`,
`logs` and `steps` carry `omitempty`. -/
def encodeTask (t : Task) : JVal :=
  .jobj ([("id", .jstr t.id), ("request", encodeReqSafe t.request),
          ("status", .jstr (statusStr t.status))] ++
    (if t.success = false then [] else [("success", .jbool t.success)]) ++
    (if t.result = "" then [] else [("result", .jstr t.result)]) ++
    (if t.error = "" then [] else [("error", .jstr t.error)]) ++
    (if t.logs = "" then [] else [("logs", .jstr t.logs)]) ++
    (match t.steps with
     | none => []
     | some s => [("steps", .raw s)]) ++
    [("created_at", encodeTime (some t.createdAt)),
     ("started_at", encodeTime t.startedAt),
     ("finished_at", encodeTime t.finishedAt)])

/-- How `Queue.process` launches the worker: this argv, with the job
descriptor (credential included) written to its standard input. -/
structure Spawn where
  argv : List String
  stdin : JVal

/-- The worker invocation built in `Queue.process`: argv is
`python3 workerPath`; the descriptor on stdin carries the request
fields and the credential. -/
def spawnOf (workerPath : String) (t : Task) : Spawn :=
  { argv := ["python3", workerPath],
    stdin := .jobj
      [("goal", .jstr t.request.goal), ("app", .jstr t.request.app),
       ("provider", .jstr t.request.provider), ("model", .jstr t.request.model),
       ("reasoning", .jbool t.request.reasoning),
       ("vision", .jbool t.request.vision),
       ("max_steps", .jnum t.request.maxSteps),
       ("api_key", .jstr t.apiKey)] }

/-! ### Concrete states used to exercise the semantics -/

def wp0 : String := "./worker.py"

def reqA : TaskRequest :=
  { goal := "open settings", app := "", provider := "Google",
    model := "gemini-2.0-flash", reasoning := false, vision := false,
    maxSteps := 30, apiKey := "" }

/-- One job "aa" submitted into a fresh queue. -/
def sA1 : QState := (qsubmit (initQueue wp0) reqA "secret-key" "aa" 0).1

/-- ... then dequeued by the sequencer: "aa" is running. -/
def sA2 : QState := qstart sA1 "aa" [] 1

/-- The record of "aa" while it runs. -/
def tA : Task :=
  { mkTask reqA "secret-key" "aa" 0 with status := .running, startedAt := some 1 }

def reqB : TaskRequest :=
  { goal := "open maps", app := "", provider := "Ollama", model := "llama3.2",
    reasoning := false, vision := false, maxSteps := 5, apiKey := "" }

/-- One job "bb" submitted into a fresh queue. -/
def sB1 : QState := (qsubmit (initQueue wp0) reqB "" "bb" 0).1

/-- ... then cancelled while still queued ("bb" stays on the channel). -/
def sB2 : QState := (qcancel sB1 "bb" 1).1

/-- ... then dequeued by the sequencer. -/
def sB3 : QState := qstart sB2 "bb" [] 2

/-- A cancelled record awaiting a late worker result. -/
def tCan : Task :=
  { mkTask reqA "key2" "cc" 0 with status := .cancelled, finishedAt := some 1 }

def sC : QState := { (initQueue wp0) with tasks := [("cc", tCan)], seq := .busy "cc" }

/-- A running record used to exercise the finalize step. -/
def tRun9 : Task :=
  { mkTask reqA "key3" "dd" 0 with status := .running, startedAt := some 1 }

def ollamaReq : TaskRequest :=
  { goal := "test", app := "", provider := "Ollama", model := "",
    reasoning := false, vision := false, maxSteps := 0, apiKey := "" }

def googleReq : TaskRequest := { ollamaReq with provider := "Google" }

def tQx : Task := mkTask reqA "kx" "x" 0

def tQy : Task := mkTask reqA "ky" "y" 0

/-- A queue with two pending jobs "x", "y" (in that order). -/
def qPos : QState :=
  { (initQueue wp0) with
    tasks := [("x", tQx), ("y", tQy)],
    pendingOrder := ["x", "y"], channel := ["x", "y"], used := ["x", "y"] }

/-- The normalized form of `ollamaReq` produced by `validateRequest`. -/
def rOll : TaskRequest := { ollamaReq with model := "llama3.2", maxSteps := 30 }

/-! ### Map and list lemmas -/

theorem tget_tset_self (f : Task → Task) (ts : List (String × Task)) (id : String) :
    tget (tset f ts id) id = (tget ts id).map f := by
  induction ts with
  | nil => simp [tget, tset]
  | cons kv rest ih =>
    obtain ⟨k, v⟩ := kv
    by_cases hk : k = id <;> simp [tget, tset, hk, ih]

theorem tget_tset_ne (f : Task → Task) (ts : List (String × Task)) (id id' : String)
    (h : id' ≠ id) : tget (tset f ts id) id' = tget ts id' := by
  induction ts with
  | nil => simp [tget, tset]
  | cons kv rest ih =>
    obtain ⟨k, v⟩ := kv
    simp only [tset]
    by_cases hk : k = id
    · rw [if_pos hk]
      have hne : k ≠ id' := fun hh => h (hh.symm.trans hk)
      simp [tget, hne]
    · rw [if_neg hk]
      by_cases hk' : k = id' <;> simp [tget, hk', ih]

theorem tget_append_fresh (ts : List (String × Task)) (k : String) (v : Task)
    (hk : tget ts k = none) (id : String) :
    tget (ts ++ [(k, v)]) id = if k = id then some v else tget ts id := by
  induction ts with
  | nil => simp [tget]
  | cons kv rest ih =>
    obtain ⟨k', v'⟩ := kv
    simp only [tget] at hk
    have h1 : k' ≠ k := by
      intro he
      rw [if_pos he] at hk
      cases hk
    rw [if_neg h1] at hk
    by_cases h2 : k' = id
    · subst h2
      simp [tget, List.cons_append, Ne.symm h1]
    · simp [tget, List.cons_append, h2, ih hk]

theorem idxOf?_eq_none_iff (l : List String) (id : String) :
    idxOf? l id = none ↔ id ∉ l := by
  induction l with
  | nil => simp [idxOf?]
  | cons x rest ih =>
    simp only [idxOf?, List.mem_cons]
    by_cases h : x = id
    · simp [h]
    · rw [if_neg h]
      cases ho : idxOf? rest id with
      | none =>
        simp only [ho, Option.map_none']
        have hnr : id ∉ rest := ih.mp ho
        simp only [true_iff, eq_self_iff_true]
        push_neg
        exact ⟨fun he => h he.symm, hnr⟩
      | some m =>
        have hmem : id ∈ rest := by
          by_contra hc
          rw [ih.mpr hc] at ho
          cases ho
        simp only [ho, Option.map_some']
        constructor
        · intro hc
          cases hc
        · intro hc
          exact absurd (Or.inr hmem) hc

theorem idxOf?_removeFirst (l : List String) (e id : String) (i j : Nat)
    (he : idxOf? l e = some j) (hi : idxOf? l id = some i) (hj : j < i) :
    idxOf? (removeFirst l e) id = some (i - 1) := by
  induction l generalizing i j with
  | nil => simp [idxOf?] at he
  | cons x rest ih =>
    by_cases hx : x = e
    · have hj0 : j = 0 := by
        rw [idxOf?, if_pos hx] at he
        cases he
        rfl
      subst hj0
      have hid : x ≠ id := by
        intro hh
        rw [idxOf?, if_pos hh] at hi
        cases hi
        omega
      rw [idxOf?, if_neg hid] at hi
      cases ho : idxOf? rest id with
      | none => rw [ho] at hi; cases hi
      | some i0 =>
        rw [ho] at hi
        simp only [Option.map_some', Option.some.injEq] at hi
        rw [removeFirst, if_pos hx, ho]
        simp [← hi]
    · rw [idxOf?, if_neg hx] at he
      by_cases hid : x = id
      · rw [idxOf?, if_pos hid] at hi
        cases hi
        omega
      · rw [idxOf?, if_neg hid] at hi
        cases he0 : idxOf? rest e with
        | none => rw [he0] at he; cases he
        | some j0 =>
          cases ho : idxOf? rest id with
          | none => rw [ho] at hi; cases hi
          | some i0 =>
            rw [he0] at he
            rw [ho] at hi
            simp only [Option.map_some', Option.some.injEq] at he hi
            have h1 : j0 < i0 := by omega
            have h2 := ih i0 j0 he0 ho h1
            rw [removeFirst, if_neg hx, idxOf?, if_neg hid, h2]
            simp only [Option.map_some', Option.some.injEq]
            omega

/-- The status after finalization is never "running": the finalize step
either respects a cancelled status or writes a terminal one. -/
theorem finalize_status_ne_running (t : Task) (o : Outcome) (now : Nat) :
    (finalizeTask t o now).status ≠ .running := by
  unfold finalizeTask
  by_cases hc : t.status = Status.cancelled
  · simp [hc]
  · simp only [hc, if_neg, ite_false]
    cases o.exitErr with
    | some e => simp [hc]
    | none =>
      cases o.parsed with
      | none => simp [hc]
      | some r =>
        by_cases hk : r.ok = false <;> simp [hc, hk]

/-! ### The inductive invariant -/

/-- The inductive invariant of the queue under any interleaving:
at most one task is running (it is the busy one), channel ids are
distinct, every enqueued id is a stored queued-or-cancelled task with
outcome fields still unset, the busy id is no longer enqueued, the busy
task is running or cancelled, running tasks have unset outcome fields
and a live process with `current` pointing at them, and ids are all
recorded in the ghost `used` set. -/
structure Inv (s : QState) : Prop where
  runUniq : ∀ id t, tget s.tasks id = some t → t.status = .running → s.seq = .busy id
  chanNodup : s.channel.Nodup
  chanTask : ∀ id, id ∈ s.channel → ∃ t, tget s.tasks id = some t ∧
      (t.status = .queued ∨ t.status = .cancelled) ∧
      t.success = false ∧ t.result = "" ∧ t.steps = none
  busyChan : ∀ id, s.seq = .busy id → id ∉ s.channel
  busyStatus : ∀ id t, s.seq = .busy id → tget s.tasks id = some t →
      t.status = .running ∨ t.status = .cancelled
  runFields : ∀ id t, tget s.tasks id = some t → t.status = .running →
      t.success = false ∧ t.result = "" ∧ t.steps = none
  runCmd : ∀ id t, tget s.tasks id = some t → t.status = .running →
      s.cmdLive = true ∧ s.current = id
  tasksUsed : ∀ id t, tget s.tasks id = some t → id ∈ s.used
  chanUsed : ∀ id, id ∈ s.channel → id ∈ s.used
  busyUsed : ∀ id, s.seq = .busy id → id ∈ s.used

theorem inv_init (wp : String) : Inv (initQueue wp) := by
  constructor <;> simp [initQueue, tget]

theorem inv_submit {s : QState} (hs : Inv s) (req : TaskRequest)
    (apiKey id : String) (now : Nat) (hfresh : id ∉ s.used) :
    Inv (qsubmit s req apiKey id now).1 := by
  have hnone : tget s.tasks id = none := by
    cases h : tget s.tasks id with
    | none => rfl
    | some t => exact absurd (hs.tasksUsed id t h) hfresh
  have hT := tget_append_fresh s.tasks id (mkTask req apiKey id now) hnone
  constructor
  case runUniq =>
    intro id' t' h hrun
    simp only [qsubmit] at h ⊢
    rw [hT id'] at h
    by_cases hid : id = id'
    · rw [if_pos hid] at h
      obtain rfl : mkTask req apiKey id now = t' := Option.some.inj h
      simp [mkTask] at hrun
    · rw [if_neg hid] at h
      exact hs.runUniq id' t' h hrun
  case chanNodup =>
    simp only [qsubmit]
    refine List.nodup_append.mpr ⟨hs.chanNodup, List.nodup_singleton id, ?_⟩
    intro a ha hb
    rw [List.mem_singleton] at hb
    subst hb
    exact hfresh (hs.chanUsed a ha)
  case chanTask =>
    intro id' hmem
    simp only [qsubmit, List.mem_append, List.mem_singleton] at hmem ⊢
    cases hmem with
    | inl hold =>
      obtain ⟨t, ht, hst, hf⟩ := hs.chanTask id' hold
      refine ⟨t, ?_, hst, hf⟩
      rw [hT id']
      have hne : id ≠ id' := by
        intro he
        rw [he] at hnone
        rw [hnone] at ht
        cases ht
      rw [if_neg hne]
      exact ht
    | inr heq =>
      subst heq
      refine ⟨mkTask req apiKey id' now, ?_, ?_⟩
      · rw [hT id', if_pos rfl]
      · simp [mkTask]
  case busyChan =>
    intro id' hbusy
    simp only [qsubmit] at hbusy ⊢
    have h1 := hs.busyChan id' hbusy
    have h2 := hs.busyUsed id' hbusy
    simp only [List.mem_append, List.mem_singleton]
    rintro (h | rfl)
    · exact h1 h
    · exact hfresh h2
  case busyStatus =>
    intro id' t' hbusy h
    simp only [qsubmit] at hbusy h
    have h2 := hs.busyUsed id' hbusy
    have hne : id ≠ id' := fun he => hfresh (he ▸ h2)
    rw [hT id', if_neg hne] at h
    exact hs.busyStatus id' t' hbusy h
  case runFields =>
    intro id' t' h hrun
    simp only [qsubmit] at h
    rw [hT id'] at h
    by_cases hid : id = id'
    · rw [if_pos hid] at h
      obtain rfl : mkTask req apiKey id now = t' := Option.some.inj h
      simp [mkTask] at hrun
    · rw [if_neg hid] at h
      exact hs.runFields id' t' h hrun
  case runCmd =>
    intro id' t' h hrun
    simp only [qsubmit] at h ⊢
    rw [hT id'] at h
    by_cases hid : id = id'
    · rw [if_pos hid] at h
      obtain rfl : mkTask req apiKey id now = t' := Option.some.inj h
      simp [mkTask] at hrun
    · rw [if_neg hid] at h
      exact hs.runCmd id' t' h hrun
  case tasksUsed =>
    intro id' t' h
    simp only [qsubmit] at h ⊢
    rw [hT id'] at h
    simp only [List.mem_append, List.mem_singleton]
    by_cases hid : id = id'
    · exact Or.inr hid.symm
    · rw [if_neg hid] at h
      exact Or.inl (hs.tasksUsed id' t' h)
  case chanUsed =>
    intro id' hmem
    simp only [qsubmit, List.mem_append, List.mem_singleton] at hmem ⊢
    cases hmem with
    | inl h => exact Or.inl (hs.chanUsed id' h)
    | inr h => exact Or.inr h
  case busyUsed =>
    intro id' hbusy
    simp only [qsubmit, List.mem_append] at hbusy ⊢
    exact Or.inl (hs.busyUsed id' hbusy)

/-- Case analysis for a lookup in an updated registry. -/
theorem tget_tset_cases {f : Task → Task} {ts : List (String × Task)}
    {id id' : String} {t' : Task} (h : tget (tset f ts id) id' = some t') :
    (∃ t0, id' = id ∧ tget ts id = some t0 ∧ t' = f t0) ∨
    (id' ≠ id ∧ tget ts id' = some t') := by
  by_cases hid : id' = id
  · subst hid
    rw [tget_tset_self] at h
    cases h0 : tget ts id' with
    | none => rw [h0] at h; cases h
    | some t0 =>
      rw [h0] at h
      simp only [Option.map_some', Option.some.injEq] at h
      refine Or.inl ⟨t0, rfl, ?_, ?_⟩
      · rfl
      · exact h.symm
  · rw [tget_tset_ne _ _ _ _ hid] at h
    exact Or.inr ⟨hid, h⟩

/-- `Cancel` on an unknown id: no transition, returns false, no kill. -/
theorem qcancel_eq_none {s : QState} {id : String} {now : Nat}
    (hT : tget s.tasks id = none) : qcancel s id now = (s, false, false) := by
  unfold qcancel
  rw [hT]

/-- `Cancel` on a queued or running task: mark cancelled with finish
time, drop from the pending order, return true; the kill flag is the
code's exact condition. -/
theorem qcancel_eq_active {s : QState} {id : String} {now : Nat} {task : Task}
    (hT : tget s.tasks id = some task)
    (hqr : task.status = .queued ∨ task.status = .running) :
    qcancel s id now =
      ({ s with
          tasks := tset (fun t => { t with status := .cancelled, finishedAt := some now })
            s.tasks id,
          pendingOrder := removeFirst s.pendingOrder id }, true,
       if task.status = .running ∧ s.cmdLive = true ∧ s.current = id then true
       else false) := by
  unfold qcancel
  rw [hT]
  simp only [if_pos hqr]

/-- `Cancel` on a terminal task: no transition, returns false, no kill
(a terminal task is never the one whose process is killed). -/
theorem qcancel_eq_terminal {s : QState} {id : String} {now : Nat} {task : Task}
    (hT : tget s.tasks id = some task)
    (hqr : ¬(task.status = .queued ∨ task.status = .running)) :
    qcancel s id now = (s, false, false) := by
  unfold qcancel
  rw [hT]
  simp only [if_neg hqr]
  have hnr : ¬task.status = Status.running := fun hc => hqr (Or.inr hc)
  rw [if_neg (fun hc => hnr hc.1)]

/-- The dequeue step when the task record is still present. -/
theorem qstart_eq_some {s : QState} {h : String} {rest : List String}
    {now : Nat} {task : Task} (hT : tget s.tasks h = some task) :
    qstart s h rest now =
      { s with
          channel := rest,
          tasks := tset (fun t => { t with status := .running, startedAt := some now })
            s.tasks h,
          current := h,
          pendingOrder := removeFirst s.pendingOrder h,
          cmdLive := true,
          seq := .busy h } := by
  unfold qstart
  rw [hT]

theorem inv_cancel {s : QState} (hs : Inv s) (id : String) (now : Nat) :
    Inv (qcancel s id now).1 := by
  cases hT : tget s.tasks id with
  | none => rw [qcancel_eq_none hT]; exact hs
  | some task =>
    by_cases hqr : task.status = .queued ∨ task.status = .running
    · rw [qcancel_eq_active hT hqr]
      refine ⟨?_, hs.chanNodup, ?_, hs.busyChan, ?_, ?_, ?_, ?_, hs.chanUsed, hs.busyUsed⟩
      · intro id' t' hg hrun
        rcases tget_tset_cases hg with ⟨t0, rfl, ht0, rfl⟩ | ⟨hne, hg'⟩
        · simp at hrun
        · exact hs.runUniq id' t' hg' hrun
      · intro id' hm
        obtain ⟨t, ht, hst, hf⟩ := hs.chanTask id' hm
        by_cases hid : id' = id
        · subst hid
          refine ⟨{ t with status := .cancelled, finishedAt := some now }, ?_, ?_, ?_⟩
          · rw [tget_tset_self, ht]
            rfl
          · exact Or.inr rfl
          · exact hf
        · exact ⟨t, by rw [tget_tset_ne _ _ _ _ hid]; exact ht, hst, hf⟩
      · intro id' t' hbusy hg
        rcases tget_tset_cases hg with ⟨t0, rfl, ht0, rfl⟩ | ⟨hne, hg'⟩
        · exact Or.inr rfl
        · exact hs.busyStatus id' t' hbusy hg'
      · intro id' t' hg hrun
        rcases tget_tset_cases hg with ⟨t0, rfl, ht0, rfl⟩ | ⟨hne, hg'⟩
        · simp at hrun
        · exact hs.runFields id' t' hg' hrun
      · intro id' t' hg hrun
        rcases tget_tset_cases hg with ⟨t0, rfl, ht0, rfl⟩ | ⟨hne, hg'⟩
        · simp at hrun
        · exact hs.runCmd id' t' hg' hrun
      · intro id' t' hg
        rcases tget_tset_cases hg with ⟨t0, rfl, ht0, rfl⟩ | ⟨hne, hg'⟩
        · exact hs.tasksUsed id' t0 ht0
        · exact hs.tasksUsed id' t' hg'
    · rw [qcancel_eq_terminal hT hqr]
      exact hs

theorem inv_clear {s : QState} (hs : Inv s) : Inv (qclear s).1 := by
  constructor
  case runUniq => intro id t hg; rw [show (qclear s).1.tasks = [] from rfl] at hg; cases hg
  case chanNodup => exact List.nodup_nil
  case chanTask => intro id hm; cases hm
  case busyChan => intro id hb hm; cases hm
  case busyStatus => intro id t hb hg; rw [show (qclear s).1.tasks = [] from rfl] at hg; cases hg
  case runFields => intro id t hg; rw [show (qclear s).1.tasks = [] from rfl] at hg; cases hg
  case runCmd => intro id t hg; rw [show (qclear s).1.tasks = [] from rfl] at hg; cases hg
  case tasksUsed => intro id t hg; rw [show (qclear s).1.tasks = [] from rfl] at hg; cases hg
  case chanUsed => intro id hm; cases hm
  case busyUsed => intro id hb; exact hs.busyUsed id hb

theorem inv_start {s : QState} (hs : Inv s) (h : String) (rest : List String)
    (now : Nat) (hseq : s.seq = .idle) (hchan : s.channel = h :: rest) :
    Inv (qstart s h rest now) := by
  have hmem : h ∈ s.channel := by rw [hchan]; exact List.mem_cons_self h rest
  obtain ⟨task, htask, hst, hsuc, hres, hstep⟩ := hs.chanTask h hmem
  have hnodup : (h :: rest).Nodup := hchan ▸ hs.chanNodup
  have hhrest : h ∉ rest := (List.nodup_cons.mp hnodup).1
  have hrestnd : rest.Nodup := (List.nodup_cons.mp hnodup).2
  have hnorun : ∀ id t, tget s.tasks id = some t → t.status ≠ .running := by
    intro id t ht hr
    have h2 := hs.runUniq id t ht hr
    rw [hseq] at h2
    cases h2
  rw [qstart_eq_some htask]
  constructor
  case runUniq =>
    intro id' t' hg hrun
    rcases tget_tset_cases hg with ⟨t0, rfl, ht0, rfl⟩ | ⟨hne, hg'⟩
    · rfl
    · exact absurd hrun (hnorun id' t' hg')
  case chanNodup => exact hrestnd
  case chanTask =>
    intro id' hm
    have hne : id' ≠ h := fun he => hhrest (he ▸ hm)
    obtain ⟨t, ht, hst', hf⟩ :=
      hs.chanTask id' (by rw [hchan]; exact List.mem_cons_of_mem _ hm)
    exact ⟨t, by rw [tget_tset_ne _ _ _ _ hne]; exact ht, hst', hf⟩
  case busyChan =>
    intro id' hbusy
    have hb2 : SeqState.busy h = SeqState.busy id' := hbusy
    injection hb2 with hh
    subst hh
    exact hhrest
  case busyStatus =>
    intro id' t' hbusy hg
    have hb2 : SeqState.busy h = SeqState.busy id' := hbusy
    injection hb2 with hh
    subst hh
    rcases tget_tset_cases hg with ⟨t0, heq, ht0, rfl⟩ | ⟨hne, hg'⟩
    · left
      rfl
    · exact absurd rfl hne
  case runFields =>
    intro id' t' hg hrun
    rcases tget_tset_cases hg with ⟨t0, rfl, ht0, rfl⟩ | ⟨hne, hg'⟩
    · have h00 : t0 = task := Option.some.inj (ht0.symm.trans htask)
      subst h00
      exact ⟨hsuc, hres, hstep⟩
    · exact absurd hrun (hnorun id' t' hg')
  case runCmd =>
    intro id' t' hg hrun
    rcases tget_tset_cases hg with ⟨t0, rfl, ht0, rfl⟩ | ⟨hne, hg'⟩
    · exact ⟨rfl, rfl⟩
    · exact absurd hrun (hnorun id' t' hg')
  case tasksUsed =>
    intro id' t' hg
    rcases tget_tset_cases hg with ⟨t0, rfl, ht0, rfl⟩ | ⟨hne, hg'⟩
    · exact hs.tasksUsed id' t0 ht0
    · exact hs.tasksUsed id' t' hg'
  case chanUsed =>
    intro id' hm
    exact hs.chanUsed id' (by rw [hchan]; exact List.mem_cons_of_mem _ hm)
  case busyUsed =>
    intro id' hbusy
    have hb2 : SeqState.busy h = SeqState.busy id' := hbusy
    injection hb2 with hh
    subst hh
    exact hs.chanUsed h hmem

theorem inv_finish {s : QState} (hs : Inv s) (h : String) (o : Outcome)
    (now : Nat) (hseq : s.seq = .busy h) : Inv (qfinish s h o now) := by
  have hnotchan : h ∉ s.channel := hs.busyChan h hseq
  have honerun : ∀ id t, tget s.tasks id = some t → t.status = .running → id = h := by
    intro id t ht hr
    have h2 := hs.runUniq id t ht hr
    rw [hseq] at h2
    injection h2 with hh
    exact hh.symm
  unfold qfinish
  constructor
  case runUniq =>
    intro id' t' hg hrun
    rcases tget_tset_cases hg with ⟨t0, rfl, ht0, rfl⟩ | ⟨hne, hg'⟩
    · exact absurd hrun (finalize_status_ne_running t0 o now)
    · exact absurd (honerun id' t' hg' hrun) hne
  case chanNodup => exact hs.chanNodup
  case chanTask =>
    intro id' hm
    have hne : id' ≠ h := fun he => hnotchan (he ▸ hm)
    obtain ⟨t, ht, hst, hf⟩ := hs.chanTask id' hm
    exact ⟨t, by rw [tget_tset_ne _ _ _ _ hne]; exact ht, hst, hf⟩
  case busyChan =>
    intro id' hb
    have hb2 : SeqState.idle = SeqState.busy id' := hb
    cases hb2
  case busyStatus =>
    intro id' t' hb hg
    have hb2 : SeqState.idle = SeqState.busy id' := hb
    cases hb2
  case runFields =>
    intro id' t' hg hrun
    rcases tget_tset_cases hg with ⟨t0, rfl, ht0, rfl⟩ | ⟨hne, hg'⟩
    · exact absurd hrun (finalize_status_ne_running t0 o now)
    · exact absurd (honerun id' t' hg' hrun) hne
  case runCmd =>
    intro id' t' hg hrun
    rcases tget_tset_cases hg with ⟨t0, rfl, ht0, rfl⟩ | ⟨hne, hg'⟩
    · exact absurd hrun (finalize_status_ne_running t0 o now)
    · exact absurd (honerun id' t' hg' hrun) hne
  case tasksUsed =>
    intro id' t' hg
    rcases tget_tset_cases hg with ⟨t0, rfl, ht0, rfl⟩ | ⟨hne, hg'⟩
    · exact hs.tasksUsed id' t0 ht0
    · exact hs.tasksUsed id' t' hg'
  case chanUsed => exact hs.chanUsed
  case busyUsed =>
    intro id' hb
    have hb2 : SeqState.idle = SeqState.busy id' := hb
    cases hb2

/-- Every step of the system preserves the invariant. -/
theorem inv_step {s t : QState} {l : Label} (hs : Inv s) (hstep : Step s l t) :
    Inv t := by
  cases l with
  | submit req apiKey id now =>
    obtain ⟨hfresh, rfl⟩ := hstep
    exact inv_submit hs req apiKey id now hfresh
  | cancel id now =>
    obtain rfl := hstep
    exact inv_cancel hs id now
  | clear =>
    obtain rfl := hstep
    exact inv_clear hs
  | start now =>
    obtain ⟨hseq, h, rest, hchan, rfl⟩ := hstep
    exact inv_start hs h rest now hseq hchan
  | finish o now =>
    obtain ⟨h, hseq, rfl⟩ := hstep
    exact inv_finish hs h o now hseq

/-- Every reachable state satisfies the invariant. -/
theorem reachable_inv {wp : String} {s : QState} (h : Reachable wp s) : Inv s := by
  induction h with
  | init => exact inv_init wp
  | step hr hstep ih => exact inv_step ih hstep

/-! ### Reachability of the concrete traces -/

theorem reach_sA1 : Reachable wp0 sA1 :=
  Reachable.step Reachable.init
    (show Step (initQueue wp0) (Label.submit reqA "secret-key" "aa" 0) sA1 from
      ⟨by decide, rfl⟩)

theorem reach_sA2 : Reachable wp0 sA2 :=
  Reachable.step reach_sA1
    (show Step sA1 (Label.start 1) sA2 from ⟨rfl, "aa", [], rfl, rfl⟩)

theorem reach_sB1 : Reachable wp0 sB1 :=
  Reachable.step Reachable.init
    (show Step (initQueue wp0) (Label.submit reqB "" "bb" 0) sB1 from
      ⟨by decide, rfl⟩)

theorem reach_sB2 : Reachable wp0 sB2 :=
  Reachable.step reach_sB1 (show Step sB1 (Label.cancel "bb" 1) sB2 from rfl)

theorem reach_sB3 : Reachable wp0 sB3 :=
  Reachable.step reach_sB2
    (show Step sB2 (Label.start 2) sB3 from ⟨rfl, "bb", [], rfl, rfl⟩)

/-! ### Validation helpers -/

theorem effProvider_ne_empty (p : String) : effProvider p ≠ "" := by
  unfold effProvider
  split_ifs with h
  · decide
  · exact h

theorem clampSteps_bounds (n : Int) : 1 ≤ clampSteps n ∧ clampSteps n ≤ 100 := by
  unfold clampSteps
  split_ifs <;> omega

theorem clampSteps_nonpos {n : Int} (h : n ≤ 0) : clampSteps n = 30 := by
  unfold clampSteps
  rw [if_pos h]

theorem clampSteps_high {n : Int} (h : 100 < n) : clampSteps n = 100 := by
  unfold clampSteps
  rw [if_neg (by omega), if_pos h]

theorem defaultModel_ne_empty {p : String} (h : validProvider p = true) :
    defaultModel p ≠ "" := by
  unfold validProvider at h
  simp only [Bool.or_eq_true, decide_eq_true_eq] at h
  unfold defaultModel
  rcases h with ((((h | h) | h) | h) | h) | h <;> subst h <;> decide

/-- Exactly the error conditions of `validateRequest`. -/
theorem validateRequest_error_iff (req : TaskRequest) (key : String) :
    (∃ e, validateRequest req key = .error e) ↔
      (goTrimSpace req.goal = "" ∨
       validProvider (effProvider req.provider) = false ∨
       (key = "" ∧ effProvider req.provider ≠ "Ollama") ∨
       (req.app ≠ "" ∧ isValidPackageName req.app = false)) := by
  simp only [validateRequest]
  split_ifs with h1 h2 hm h3
  · simp [h1]
  · simp [hm.1, hm.2]
  · obtain ⟨h3a, h3b⟩ := h3
    rw [Bool.not_eq_true] at h3b
    simp [h3a, h3b]
  · simp only [Bool.not_eq_true] at h3
    simp [h1, h2, hm, h3]
  · rw [Bool.not_eq_true] at h2
    simp [h2]

/-- On success, `validateRequest` returns a request with a non-empty
provider and model and a clamped step budget. -/
theorem validateRequest_ok_fields {req : TaskRequest} {key : String}
    {r : TaskRequest} (h : validateRequest req key = .ok r) :
    r.provider ≠ "" ∧ r.model ≠ "" ∧ r.maxSteps = clampSteps req.maxSteps := by
  simp only [validateRequest] at h
  split_ifs at h with h1 h2 hA hB hC
  all_goals cases h
  all_goals refine ⟨effProvider_ne_empty _, ?_, rfl⟩
  all_goals first
    | exact defaultModel_ne_empty h2
    | exact ‹¬(req.model = "")›

theorem submitDefaults_eq {r : TaskRequest} (hp : r.provider ≠ "")
    (hm : r.model ≠ "") (hn : r.maxSteps ≠ 0) : submitDefaults r = r := by
  unfold submitDefaults
  simp [hp, hm, hn]

/-- Evaluation of `Position` for a pending id, read off its first index. -/
theorem qposition_of_idx {q : QState} {id : String} {i : Nat}
    (hcur : q.current ≠ id) (hi : idxOf? q.pendingOrder id = some i) :
    qposition q id = (i : Int) + 1 := by
  unfold qposition
  rw [if_neg hcur, hi]

/-! ### The claims -/

/-- Claim C1: in every state reachable by any interleaving of `Submit`,
`Cancel`, `Clear` and the sequencer's processing steps, at most one job
in the task store has status "running" (any two running entries share
one id). -/
theorem c1_atMostOneRunning (wp : String) (s : QState) (hreach : Reachable wp s)
    (id1 : String) (t1 : Task) (id2 : String) (t2 : Task)
    (h1 : tget s.tasks id1 = some t1) (hr1 : t1.status = .running)
    (h2 : tget s.tasks id2 = some t2) (hr2 : t2.status = .running) :
    id1 = id2 := by
  have hi := reachable_inv hreach
  have b1 := hi.runUniq id1 t1 h1 hr1
  have b2 := hi.runUniq id2 t2 h2 hr2
  rw [b1] at b2
  exact SeqState.busy.inj b2

theorem c1_witness :
    Reachable wp0 sA2 ∧ tget sA2.tasks "aa" = some tA ∧
    tA.status = Status.running ∧ "aa" = "aa" :=
  ⟨reach_sA2, rfl, rfl,
   c1_atMostOneRunning wp0 sA2 reach_sA2 "aa" tA "aa" tA rfl rfl rfl rfl⟩

/-- Claim C2 (code bug, evaluated at the failing input): in the
reachable state `sB2` job "bb" was cancelled while queued and is still
on the work channel; the sequencer's dequeue step nevertheless marks it
running, records a start time, and spawns a worker (busy sequencer,
live process) — it is not skipped. -/
theorem c2_bug_eval :
    Reachable wp0 sB2 ∧
    (qget sB2 "bb").map Task.status = some Status.cancelled ∧
    sB2.channel = ["bb"] ∧
    Step sB2 (Label.start 2) sB3 ∧
    (qget sB3 "bb").map Task.status = some Status.running ∧
    (qget sB3 "bb").map Task.startedAt = some (some 2) ∧
    sB3.seq = SeqState.busy "bb" ∧ sB3.cmdLive = true :=
  ⟨reach_sB2, rfl, rfl, ⟨rfl, "bb", [], rfl, rfl⟩, rfl, rfl, rfl, rfl⟩

/-- Claim C3 (code bug, evaluated at the failing input): the dequeue
step of the sequencer moves job "bb" from the terminal status
"cancelled" back to "running" — terminal states are not preserved. -/
theorem c3_bug_eval :
    Reachable wp0 sB2 ∧ Step sB2 (Label.start 2) sB3 ∧
    (qget sB2 "bb").map Task.status = some Status.cancelled ∧
    (qget sB3 "bb").map Task.status = some Status.running :=
  ⟨reach_sB2, ⟨rfl, "bb", [], rfl, rfl⟩, rfl, rfl⟩

/-- Claim C4: if the job's status reads "cancelled" when the worker
process has exited, the finalization step leaves the status cancelled
and does not overwrite the success flag, result text or error text with
the late-arriving outcome. -/
theorem c4_cancellationWins (s : QState) (h : String) (o : Outcome) (now : Nat)
    (t : Task) (ht : tget s.tasks h = some t) (hc : t.status = .cancelled) :
    ∃ t', tget (qfinish s h o now).tasks h = some t' ∧
      t'.status = .cancelled ∧ t'.success = t.success ∧
      t'.result = t.result ∧ t'.error = t.error := by
  refine ⟨finalizeTask t o now, ?_, ?_⟩
  · show tget (tset (fun tt => finalizeTask tt o now) s.tasks h) h = _
    rw [tget_tset_self, ht]
    rfl
  · unfold finalizeTask
    simp [hc]

theorem c4_witness :
    ∃ t', tget (qfinish sC "cc"
        { exitErr := none, stdout := "late", parsed := none, stderr := "log" }
        5).tasks "cc" = some t' ∧
      t'.status = Status.cancelled ∧ t'.success = tCan.success ∧
      t'.result = tCan.result ∧ t'.error = tCan.error :=
  c4_cancellationWins sC "cc"
    { exitErr := none, stdout := "late", parsed := none, stderr := "log" } 5
    tCan rfl rfl

/-- Claim C5: submission fails with a validation error exactly for an
empty trimmed goal, an unsupported (defaulted) provider, a missing
credential for a non-Ollama provider, or a malformed non-empty app
package name; on success the stored record is queued with a step budget
in [1,100], where non-positive budgets collapse to 30 and budgets above
100 clamp to 100; Ollama with an empty credential is accepted and
Google with an empty credential is rejected. -/
theorem c5_submissionGate :
    (∀ (req : TaskRequest) (key : String),
      (∃ e, validateRequest req key = .error e) ↔
        (goTrimSpace req.goal = "" ∨
         validProvider (effProvider req.provider) = false ∨
         (key = "" ∧ effProvider req.provider ≠ "Ollama") ∨
         (req.app ≠ "" ∧ isValidPackageName req.app = false))) ∧
    (∀ (req : TaskRequest) (key : String) (r : TaskRequest) (id : String) (now : Nat),
      validateRequest req key = .ok r →
      (mkTask r key id now).status = .queued ∧
      1 ≤ (mkTask r key id now).request.maxSteps ∧
      (mkTask r key id now).request.maxSteps ≤ 100 ∧
      (req.maxSteps ≤ 0 → (mkTask r key id now).request.maxSteps = 30) ∧
      (100 < req.maxSteps → (mkTask r key id now).request.maxSteps = 100)) ∧
    (∃ r, validateRequest ollamaReq "" = .ok r) ∧
    (∃ e, validateRequest googleReq "" = .error e) := by
  refine ⟨validateRequest_error_iff, ?_, ⟨_, rfl⟩, ⟨_, rfl⟩⟩
  intro req key r id now h
  obtain ⟨hp, hmo, hrs⟩ := validateRequest_ok_fields h
  have hb := clampSteps_bounds req.maxSteps
  have hn : r.maxSteps ≠ 0 := by
    rw [hrs]
    omega
  have hd : submitDefaults r = r := submitDefaults_eq hp hmo hn
  have hms : (mkTask r key id now).request.maxSteps = r.maxSteps := by
    unfold mkTask
    rw [hd]
  refine ⟨rfl, ?_, ?_, ?_, ?_⟩
  · rw [hms, hrs]
    exact hb.1
  · rw [hms, hrs]
    exact hb.2
  · intro hle
    rw [hms, hrs]
    exact clampSteps_nonpos hle
  · intro hgt
    rw [hms, hrs]
    exact clampSteps_high hgt

theorem c5_witness :
    validateRequest ollamaReq "" = Except.ok rOll ∧
    (∃ e, validateRequest googleReq "" = .error e) ∧
    (mkTask rOll "" "ee" 3).status = Status.queued ∧
    (mkTask rOll "" "ee" 3).request.maxSteps = 30 :=
  ⟨rfl, c5_submissionGate.2.2.2,
   (c5_submissionGate.2.1 ollamaReq "" rOll "ee" 3 rfl).1,
   (c5_submissionGate.2.1 ollamaReq "" rOll "ee" 3 rfl).2.2.2.1 (by decide)⟩

/-- Claim C6: `Cancel` returns false and changes nothing for an unknown
id or a terminal job; a queued job is marked cancelled with a finish
time, removed from the pending order, with no process action, returning
true; a running job (necessarily the currently executing one, with a
live process) gets a best-effort kill and the same cancelled transition,
returning true. -/
theorem c6_cancel (wp : String) (s : QState) (hreach : Reachable wp s)
    (id : String) (now : Nat) :
    (tget s.tasks id = none → qcancel s id now = (s, false, false)) ∧
    (∀ t, tget s.tasks id = some t → t.status = .queued →
      (qcancel s id now).2.1 = true ∧ (qcancel s id now).2.2 = false ∧
      (∃ t', tget (qcancel s id now).1.tasks id = some t' ∧
        t'.status = .cancelled ∧ t'.finishedAt = some now) ∧
      (qcancel s id now).1.pendingOrder = removeFirst s.pendingOrder id) ∧
    (∀ t, tget s.tasks id = some t → t.status = .running →
      s.current = id ∧ (qcancel s id now).2.2 = true ∧
      (qcancel s id now).2.1 = true ∧
      (∃ t', tget (qcancel s id now).1.tasks id = some t' ∧
        t'.status = .cancelled ∧ t'.finishedAt = some now)) ∧
    (∀ t, tget s.tasks id = some t →
      (t.status = .completed ∨ t.status = .failed ∨ t.status = .cancelled) →
      qcancel s id now = (s, false, false)) := by
  refine ⟨fun h => qcancel_eq_none h, ?_, ?_, ?_⟩
  · intro t ht hq
    rw [qcancel_eq_active ht (Or.inl hq)]
    refine ⟨rfl, ?_,
      ⟨{ t with status := .cancelled, finishedAt := some now }, ?_, rfl, rfl⟩, rfl⟩
    · rw [if_neg]
      rintro ⟨hr, _⟩
      rw [hq] at hr
      cases hr
    · rw [tget_tset_self, ht]
      rfl
  · intro t ht hrun
    have hi := reachable_inv hreach
    obtain ⟨hcml, hcur⟩ := hi.runCmd id t ht hrun
    rw [qcancel_eq_active ht (Or.inr hrun)]
    refine ⟨hcur, ?_, rfl,
      ⟨{ t with status := .cancelled, finishedAt := some now }, ?_, rfl, rfl⟩⟩
    · rw [if_pos ⟨hrun, hcml, hcur⟩]
    · rw [tget_tset_self, ht]
      rfl
  · intro t ht hterm
    refine qcancel_eq_terminal ht ?_
    rintro (hq | hr)
    · rcases hterm with h2 | h2 | h2 <;> (rw [h2] at hq; cases hq)
    · rcases hterm with h2 | h2 | h2 <;> (rw [h2] at hr; cases hr)

theorem c6_witness :
    qcancel (initQueue wp0) "zz" 9 = (initQueue wp0, false, false) ∧
    (sA2.current = "aa" ∧ (qcancel sA2 "aa" 5).2.2 = true ∧
      (qcancel sA2 "aa" 5).2.1 = true ∧
      (∃ t', tget (qcancel sA2 "aa" 5).1.tasks "aa" = some t' ∧
        t'.status = Status.cancelled ∧ t'.finishedAt = some 5)) ∧
    qcancel sB2 "bb" 7 = (sB2, false, false) :=
  ⟨(c6_cancel wp0 (initQueue wp0) Reachable.init "zz" 9).1 rfl,
   (c6_cancel wp0 sA2 reach_sA2 "aa" 5).2.2.1 tA rfl rfl,
   (c6_cancel wp0 sB2 reach_sB2 "bb" 7).2.2.2
     { mkTask reqB "" "bb" 0 with status := .cancelled, finishedAt := some 1 }
     rfl (Or.inr (Or.inr rfl))⟩

/-- Claim C7: `Position` returns 0 for the currently running id, the
1-based rank in the pending order for a pending id, and -1 otherwise;
and a queued job's position drops by exactly one when an earlier job is
cancelled or starts running. -/
theorem c7_position (q : QState) (id : String) :
    (q.current = id → qposition q id = 0) ∧
    (q.current ≠ id → ∀ i, idxOf? q.pendingOrder id = some i →
      qposition q id = (i : Int) + 1) ∧
    (q.current ≠ id → id ∉ q.pendingOrder → qposition q id = -1) ∧
    (∀ e te (now : Nat) i j, tget q.tasks e = some te → te.status = .queued →
      q.current ≠ id →
      idxOf? q.pendingOrder e = some j → idxOf? q.pendingOrder id = some i →
      j < i → qposition (qcancel q e now).1 id = qposition q id - 1) ∧
    (∀ e rest (now : Nat) i j, q.seq = .idle → q.channel = e :: rest →
      (∃ te, tget q.tasks e = some te) → q.current ≠ id →
      idxOf? q.pendingOrder e = some j → idxOf? q.pendingOrder id = some i →
      j < i → qposition (qstart q e rest now) id = qposition q id - 1) := by
  refine ⟨?_, ?_, ?_, ?_, ?_⟩
  · intro h
    unfold qposition
    rw [if_pos h]
  · intro h i hi
    exact qposition_of_idx h hi
  · intro h hm
    unfold qposition
    rw [if_neg h, (idxOf?_eq_none_iff _ _).mpr hm]
  · intro e te now i j hte hq hcur hje hji hlt
    have h1 : (qcancel q e now).1.current = q.current := by
      rw [qcancel_eq_active hte (Or.inl hq)]
    have h2 : (qcancel q e now).1.pendingOrder = removeFirst q.pendingOrder e := by
      rw [qcancel_eq_active hte (Or.inl hq)]
    have hcur2 : (qcancel q e now).1.current ≠ id := by rw [h1]; exact hcur
    have hi2 : idxOf? (qcancel q e now).1.pendingOrder id = some (i - 1) := by
      rw [h2]
      exact idxOf?_removeFirst q.pendingOrder e id i j hje hji hlt
    rw [qposition_of_idx hcur2 hi2, qposition_of_idx hcur hji]
    omega
  · intro e rest now i j hseq hchan hex hcur hje hji hlt
    obtain ⟨te, hte⟩ := hex
    have hne : e ≠ id := by
      intro he
      rw [he, hji] at hje
      injection hje with hh
      omega
    have h1 : (qstart q e rest now).current = e := by rw [qstart_eq_some hte]
    have h2 : (qstart q e rest now).pendingOrder = removeFirst q.pendingOrder e := by
      rw [qstart_eq_some hte]
    have hcur2 : (qstart q e rest now).current ≠ id := by rw [h1]; exact hne
    have hi2 : idxOf? (qstart q e rest now).pendingOrder id = some (i - 1) := by
      rw [h2]
      exact idxOf?_removeFirst q.pendingOrder e id i j hje hji hlt
    rw [qposition_of_idx hcur2 hi2, qposition_of_idx hcur hji]
    omega

theorem c7_witness :
    idxOf? qPos.pendingOrder "y" = some 1 ∧
    qposition (qcancel qPos "x" 3).1 "y" = qposition qPos "y" - 1 :=
  ⟨rfl,
   (c7_position qPos "y").2.2.2.1 "x" tQx 3 1 0 rfl rfl (by decide) rfl rfl
     (by decide)⟩

/-- Claim C8: the JSON serialization of a task is independent of the
stored credential; the worker argv is a function of the worker path
alone; the credential reaches the worker only inside the stdin
descriptor built for the spawned process. -/
theorem c8_credentialConfinement :
    (∀ (t : Task) (k1 k2 : String),
      encodeTask { t with apiKey := k1 } = encodeTask { t with apiKey := k2 }) ∧
    (∀ (wp : String) (t : Task) (k1 k2 : String),
      (spawnOf wp { t with apiKey := k1 }).argv =
        (spawnOf wp { t with apiKey := k2 }).argv) ∧
    (∀ (wp : String) (t : Task), (spawnOf wp t).argv = ["python3", wp]) ∧
    (∀ (wp : String) (t : Task), ∃ fields,
      (spawnOf wp t).stdin = .jobj fields ∧
      ("api_key", JVal.jstr t.apiKey) ∈ fields) := by
  refine ⟨?_, ?_, ?_, ?_⟩
  · intro t k1 k2
    rfl
  · intro wp t k1 k2
    rfl
  · intro wp t
    rfl
  · intro wp t
    exact ⟨_, rfl, by simp⟩

/-- Claim C9 counterexample: the claim asserts the error text embeds
the raw output truncated to a bounded length; in fact no bound exists —
for a successfully exiting worker with unparseable stdout the failure
message embeds the whole raw output, so its length is unbounded. -/
theorem c9_counterexample :
    ¬ ∃ B : Nat, ∀ out : String,
      ((finalizeTask tRun9
        { exitErr := none, stdout := out, parsed := none, stderr := "" }
        7).error).length ≤ B := by
  rintro ⟨B, hB⟩
  have h := hB (String.mk (List.replicate (B + 1) 'a'))
  have herr : (finalizeTask tRun9
      { exitErr := none, stdout := String.mk (List.replicate (B + 1) 'a'),
        parsed := none, stderr := "" } 7).error
      = "invalid worker output: " ++ String.mk (List.replicate (B + 1) 'a') := rfl
  rw [herr, String.length_append] at h
  have hlen : (String.mk (List.replicate (B + 1) 'a')).length = B + 1 := by
    simp [String.length]
  rw [hlen] at h
  omega

/-- Claim C9 (amended): when the worker exits successfully but its
stdout does not parse and the job was not cancelled during the run, the
job is marked failed and the error text is "invalid worker output: "
followed by the complete raw output — included in full, not truncated,
and not a generic process-exit message. -/
theorem c9_rawOutputInError (t : Task) (out stderrStr : String) (now : Nat)
    (hrun : t.status = .running) :
    (finalizeTask t
      { exitErr := none, stdout := out, parsed := none, stderr := stderrStr }
      now).status = .failed ∧
    (finalizeTask t
      { exitErr := none, stdout := out, parsed := none, stderr := stderrStr }
      now).error = "invalid worker output: " ++ out := by
  unfold finalizeTask
  simp [hrun]

theorem c9_witness :
    (finalizeTask tRun9
      { exitErr := none, stdout := "oops", parsed := none, stderr := "" }
      3).status = Status.failed ∧
    (finalizeTask tRun9
      { exitErr := none, stdout := "oops", parsed := none, stderr := "" }
      3).error = "invalid worker output: " ++ "oops" :=
  c9_rawOutputInError tRun9 "oops" "" 3 rfl

/-- Claim C10: a worker run that exits zero with a parsed envelope
whose ok field is false marks the (running, not cancelled) job failed
with the envelope's error text, and leaves the success flag, result
text and step trace unset. -/
theorem c10_envelopeNotOk (wp : String) (s : QState) (hreach : Reachable wp s)
    (h : String) (t : Task) (ht : tget s.tasks h = some t)
    (hrun : t.status = .running) (r : WorkerResult) (hok : r.ok = false)
    (o : Outcome) (ho1 : o.exitErr = none) (ho2 : o.parsed = some r) (now : Nat) :
    ∃ t', tget (qfinish s h o now).tasks h = some t' ∧
      t'.status = .failed ∧ t'.error = r.error ∧
      t'.success = false ∧ t'.result = "" ∧ t'.steps = none := by
  have hi := reachable_inv hreach
  obtain ⟨hsuc, hres, hstp⟩ := hi.runFields h t ht hrun
  have heq : finalizeTask t o now =
      { t with
        finishedAt := some now, logs := o.stderr,
        status := .failed, error := r.error } := by
    unfold finalizeTask
    rw [ho1, ho2]
    simp [hrun, hok]
  have hget : tget (qfinish s h o now).tasks h = some (finalizeTask t o now) := by
    show tget (tset (fun tt => finalizeTask tt o now) s.tasks h) h = _
    rw [tget_tset_self, ht]
    rfl
  rw [heq] at hget
  exact ⟨_, hget, rfl, rfl, hsuc, hres, hstp⟩

theorem c10_witness :
    ∃ t', tget (qfinish sA2 "aa"
        { exitErr := none, stdout := "x",
          parsed := some { ok := false, success := false, reason := "",
                           error := "quota exceeded", steps := none },
          stderr := "" } 9).tasks "aa" = some t' ∧
      t'.status = Status.failed ∧ t'.error = "quota exceeded" ∧
      t'.success = false ∧ t'.result = "" ∧ t'.steps = none :=
  c10_envelopeNotOk wp0 sA2 reach_sA2 "aa" tA rfl rfl
    { ok := false, success := false, reason := "", error := "quota exceeded",
      steps := none } rfl
    { exitErr := none, stdout := "x",
      parsed := some { ok := false, success := false, reason := "",
                       error := "quota exceeded", steps := none },
      stderr := "" } rfl rfl 9

end DroidRun
